import Mathlib

/-!
Shallow embedding of the ftsrelay server (`src/unnamed/part_003`, the current
`index.js`, together with the schema in `src/setup.js`).

Modelling conventions:
* A stored row of the `events` table is an `NEvent`; the events table is a
  `List NEvent` in rowid (insertion) order.
* The `tags_index` rows of an event are derived from its tags exactly as the
  `events_ai` trigger of `setup.js` computes them (`idxValues`).
* The FTS5 engine is abstracted by an oracle `ftsM : String → String → Bool`
  taking the (sanitized) MATCH string and the indexed text of a row.
* `verifyEvent` of nostr-tools and `nip19.npubEncode` are oracles
  `verify : NEvent → Bool` and `npub : String → String`; the static
  `authorized.json` allow-list is `auth : String → Option (List String)`.
* JavaScript strings are Lean `String`s (ASCII-faithful); JS `undefined`
  is `Option.none`.
-/

namespace Relay

/-- A wire/stored nostr event.  `extra` records any additional top-level keys
of the submitted JSON object beyond the seven canonical ones (their values are
irrelevant to control flow, only the key names are interpolated into the
INSERT column list by `_serialize`). -/
structure NEvent where
  id : String
  pubkey : String
  sig : String
  kind : Int
  created_at : Int
  content : String
  tags : List (List String)
  extra : List String := []
deriving DecidableEq, Repr

/-- A REQ filter, with the fields `_handleRequest` recognises.  `tagFilters`
holds the `#X` single-letter entries (key matching `/^#[A-Za-z]$/`). -/
structure Filter where
  ids : Option (List String) := none
  authors : Option (List String) := none
  kinds : Option (List Int) := none
  tagFilters : List (Char × List String) := []
  since : Option Int := none
  until' : Option Int := none
  search : Option String := none
  limit : Option Nat := none
deriving DecidableEq, Repr

/-- Frames sent to clients (`ws.send` / `server.publish`). -/
inductive Frame where
  | event (reqId : String) (e : NEvent)
  | eose (reqId : String)
  | ok (eid : String) (accepted : Bool) (reason : String)
  | closed (reqId : String) (reason : String)
  | notice (msg : String)
deriving DecidableEq, Repr

/-- `tags_index` values of an event, as produced by the `events_ai` trigger:
one entry `name:value` for every tag whose name has length 1 (a tag `[name]`
with a single-letter name and no value makes the trigger insert NULL into a
NOT NULL column, so such events are never stored; see `insertRow`). -/
def idxValues (e : NEvent) : List String :=
  e.tags.filterMap fun t =>
    match t with
    | name :: v :: _ => if name.length == 1 then some (name ++ ":" ++ v) else none
    | _ => none

/-- Tag names whose first value enters the FTS text (the `events_ai` trigger). -/
def ftsIncluded : List String :=
  ["url", "title", "description", "name", "summary", "alt", "t", "os", "arch"]

/-- The FTS document of an event: GROUP_CONCAT of the `$[1]` values of tags
with an included name (NULL values, i.e. valueless tags, are skipped). -/
def ftsText (e : NEvent) : String :=
  String.intercalate " " (e.tags.filterMap fun t =>
    match t with
    | name :: v :: _ => if ftsIncluded.contains name then some v else none
    | _ => none)

/-- JS `\w` character class: `[A-Za-z0-9_]`. -/
def jsWordChar (c : Char) : Bool := c.isAlphanum || c == '_'

/-- JS `\s` character class (ASCII part). -/
def jsWs (c : Char) : Bool :=
  c == ' ' || c == '\t' || c == '\n' || c == '\r' || c == '\x0b' || c == '\x0c'

/-- `filter.search.replace(/[^\w\s]|_/gi, " ")`: every character that is
outside `[A-Za-z0-9_\s]` OR is an underscore is replaced by one space
(written over the character list so that it evaluates by reduction). -/
def sanitize (s : String) : String :=
  ⟨s.data.map fun c => if !(jsWordChar c || jsWs c) || c == '_' then ' ' else c⟩

/-- Minimal JSON string escaping as done by `JSON.stringify` for the
characters relevant here. -/
def jsonEscape (s : String) : String :=
  s.data.foldl (fun acc c =>
    acc ++ (if c == '"' then "\\\"" else if c == '\\' then "\\\\"
            else String.singleton c)) ""

/-- `JSON.stringify` of a tag array, i.e. the stored `tags` column text. -/
def jsonTags (tags : List (List String)) : String :=
  "[" ++ String.intercalate ","
    (tags.map fun t =>
      "[" ++ String.intercalate ","
        (t.map fun v => "\"" ++ jsonEscape v ++ "\"") ++ "]") ++ "]"

/-- Substring test, modelling `LIKE '%needle%'` on literal text. -/
def strContains (hay needle : String) : Bool :=
  hay.data.tails.any fun suf => needle.data.isPrefixOf suf

/-- The length-2 search special case:
`events.tags like '%["name","<s>"]%'`. -/
def nameTagLike (s : String) (e : NEvent) : Bool :=
  strContains (jsonTags e.tags) ("[\"name\",\"" ++ s ++ "\"]")

/-- The row predicate compiled by `_handleRequest` for one filter (the
conjunction of its WHERE clauses). -/
def rowMatches (ftsM : String → String → Bool) (f : Filter) (e : NEvent) : Bool :=
  (match f.ids with | some l => l.contains e.id | none => true) &&
  (match f.authors with | some l => l.contains e.pubkey | none => true) &&
  (match f.kinds with | some l => l.contains e.kind | none => true) &&
  (f.tagFilters.all fun lf =>
    (idxValues e).any fun w =>
      lf.2.any fun v => w == String.singleton lf.1 ++ ":" ++ v) &&
  (match f.since with | some t => decide (t ≤ e.created_at) | none => true) &&
  (match f.until' with | some t => decide (e.created_at ≤ t) | none => true) &&
  (match f.search with
   | none => true
   | some s => if s.length == 2 then nameTagLike s e else ftsM (sanitize s) (ftsText e))

/-- `ORDER BY created_at DESC` (insertion sort; SQLite leaves tie order
unspecified, so no theorem below depends on the order of ties). -/
def insertDesc (x : NEvent) : List NEvent → List NEvent
  | [] => [x]
  | y :: ys => if y.created_at ≤ x.created_at then x :: y :: ys else y :: insertDesc x ys

def sortDesc : List NEvent → List NEvent
  | [] => []
  | x :: xs => insertDesc x (sortDesc xs)

/-- `filter.search ?` truthiness (an empty string is falsy in JS). -/
def searchIsTruthy (f : Filter) : Bool :=
  match f.search with
  | some s => !(s == "")
  | none => false

/-- `if (filter.limit) query += ' limit $limit'` — 0 is falsy. -/
def applyLimit (f : Filter) (l : List NEvent) : List NEvent :=
  match f.limit with
  | some n => if n == 0 then l else l.take n
  | none => l

/-- Run one filter's SELECT against the events table: WHERE conjunction,
then `ORDER BY created_at DESC` unless `search` is truthy, then LIMIT. -/
def evalFilter (ftsM : String → String → Bool) (st : List NEvent) (f : Filter) :
    List NEvent :=
  let rows := st.filter (rowMatches ftsM f)
  let ordered := if searchIsTruthy f then rows else sortDesc rows
  applyLimit f ordered

/-- The static kind allow-list of the admission gate. -/
def kindAllowList : List Int := [1011, 1063, 30063, 32267, 30267]

/-- `filter.kinds && filter.kinds.some(k => allowList.includes(k))` — the
admission gate test for one filter (absent `kinds` fails it). -/
def gateOk (f : Filter) : Bool :=
  match f.kinds with
  | none => false
  | some ks => ks.any fun k => kindAllowList.contains k

/-- The per-filter query loop: results of all filters concatenated. -/
def queryFilters (ftsM : String → String → Bool) (st : List NEvent)
    (fs : List Filter) : List NEvent :=
  (fs.map (evalFilter ftsM st)).flatten

/-- `20000 <= kind < 30000`. -/
def isEphemeral (k : Int) : Bool := 20000 ≤ k && k < 30000

/-- "Remove ephemeral events after publishing": delete every row whose id is
the id of an ephemeral event in the result list. -/
def afterEphemeral (st evs : List NEvent) : List NEvent :=
  let ephIds := (evs.filter fun e => isEphemeral e.kind).map (·.id)
  if ephIds.isEmpty then st else st.filter fun e => !(ephIds.contains e.id)

/-- The subscription registry `subIds` (JS object keys are unique and kept in
insertion order). -/
def putSub (subs : List (String × List Filter)) (sid : String)
    (fs : List Filter) : List (String × List Filter) :=
  if subs.any (fun p => p.1 == sid) then
    subs.map fun p => if p.1 == sid then (sid, fs) else p
  else subs ++ [(sid, fs)]

structure RelayState where
  store : List NEvent
  subs : List (String × List Filter)
deriving DecidableEq, Repr

/-- `_handleRequest(ws, reqId, filters)` for a live websocket and a fresh
subscription (`existingSubId` absent): admission gate, registration,
empty-set EOSE shortcut, queries, ephemeral deletion, EVENT frames, EOSE. -/
def handleRequestWs (ftsM : String → String → Bool) (s : RelayState)
    (connId reqId : String) (fs : List Filter) : RelayState × List Frame :=
  if fs.any (fun f => !(gateOk f)) then (s, [.closed reqId ""])
  else
    let subId := connId ++ "-" ++ reqId
    let subs' := putSub s.subs subId fs
    if fs.isEmpty then ({ s with subs := subs' }, [.eose reqId])
    else
      let evs := queryFilters ftsM s.store fs
      ({ store := afterEphemeral s.store evs, subs := subs' },
       evs.map (Frame.event reqId) ++ [.eose reqId])

/-- `_handleRequest(null, '', body)` — the REST path (`ws` null): no frames,
no registration, the matched events are returned.  Result is
(returned rows, events table afterwards). -/
def handleRequestRest (ftsM : String → String → Bool) (st : List NEvent)
    (fs : List Filter) : List NEvent × List NEvent :=
  if fs.any (fun f => !(gateOk f)) then ([], st)
  else
    let evs := queryFilters ftsM st fs
    (evs, afterEphemeral st evs)

/-- `_handleRequest(ws, reqId, updatedFilters, subId)` — the fan-out re-entry
(`existingSubId` given): no registration, no EOSE.  Result is
(frames sent directly to the submitting socket,
 frames published to the subscription's topic, events table afterwards). -/
def handleRequestFan (ftsM : String → String → Bool) (st : List NEvent)
    (reqId : String) (fs : List Filter) :
    List Frame × List Frame × List NEvent :=
  if fs.any (fun f => !(gateOk f)) then ([.closed reqId ""], [], st)
  else
    let evs := queryFilters ftsM st fs
    ([], evs.map (Frame.event reqId), afterEphemeral st evs)

/-- JS `String.prototype.split('-')` over the character list. -/
def splitDash : List Char → List (List Char)
  | [] => [[]]
  | c :: cs =>
    match splitDash cs with
    | [] => [[]]
    | h :: t => if c == '-' then [] :: h :: t else (c :: h) :: t

/-- `const [_, ...parts] = subId.split('-'); parts.join('-')`. -/
def reqIdOf (subId : String) : String :=
  String.intercalate "-" (((splitDash subId.data).map fun l => String.mk l).tail)

/-- `_getFirstTag(tags, name)` = `tags.find(t => t[0] == name)?.[1]`
(`none` both when no such tag exists and when the found tag has no value). -/
def firstTag (tags : List (List String)) (name : String) : Option String :=
  (tags.find? fun t => t.head? == some name).bind fun t => t[1]?

/-- `` `d:${dTag}` `` — JS template interpolation renders `undefined` as the
literal string `"undefined"`. -/
def dTagStr (p : NEvent) : String :=
  match firstTag p.tags "d" with
  | some v => v
  | none => "undefined"

def replaceableKind (n : Int) : Bool := n == 0 || n == 3 || (10000 ≤ n && n < 20000)

def paramKind (n : Int) : Bool := 30000 ≤ n && n < 40000

/-- The predecessor lookup of `_handleEvent` (lines 282-290): for replaceable
kinds the first row with the same `(pubkey, kind)`; for parameterizable kinds
the first row with the same `(pubkey, kind)` that has **any** `tags_index`
entry equal to `d:<first d value of the new event>`. -/
def replaceTarget (st : List NEvent) (p : NEvent) : Option String :=
  let n := p.kind
  if replaceableKind n || paramKind n then
    if paramKind n then
      (st.find? fun x =>
        x.pubkey == p.pubkey && x.kind == n &&
          (idxValues x).contains ("d:" ++ dTagStr p)).map (·.id)
    else
      (st.find? fun x => x.pubkey == p.pubkey && x.kind == n).map (·.id)
  else none

/-- `_validateEvent`.  `Except.error` models a thrown JS exception
(`dTag.startsWith` on `undefined` throws a TypeError). -/
def validateEvent (verify : NEvent → Bool) (npub : String → String)
    (auth : String → Option (List String)) (e : NEvent) : Except String Bool :=
  if !(verify e) then .ok false
  else
    match auth (npub e.pubkey) with
    | none => .ok false
    | some entry =>
      if entry.isEmpty then .ok true
      else if e.kind == 30063 then
        match firstTag e.tags "d" with
        | none => .error "TypeError: undefined is not an object"
        | some d => .ok (!entry.isEmpty && entry.any fun pre => d.startsWith pre)
      else if e.kind == 32267 then
        .ok (!entry.isEmpty && entry.any fun v => some v == firstTag e.tags "d")
      else .ok true

/-- The declared columns of the `events` table (`setup.js`). -/
def eventColumns : List String :=
  ["id", "pubkey", "sig", "kind", "created_at", "content", "tags"]

/-- A tag `[name]` with a single-letter name and no value: the `events_ai`
trigger computes `name || ':' || NULL = NULL` for it and inserting NULL into
the NOT NULL column `tags_index.value` aborts the whole INSERT. -/
def valuelessSingleLetterTag (t : List String) : Bool :=
  match t with
  | [name] => name.length == 1
  | _ => false

/-- SQLite's implicit names for the rowid of a rowid table: they are valid
column names in an INSERT column list even though `setup.js` does not
declare them. -/
def rowidAliases : List String := ["rowid", "oid", "_rowid_"]

/-- SQLite identifier matching is ASCII-case-insensitive. -/
def asciiLower (s : String) : String := ⟨s.data.map Char.toLower⟩

/-- Does a key of the submitted payload resolve to a column of the `events`
table: one of the seven declared columns or one of the implicit rowid
aliases, matched ASCII-case-insensitively. -/
def isEventsColumn (k : String) : Bool :=
  eventColumns.contains (asciiLower k) || rowidAliases.contains (asciiLower k)

/-- `db.query(_serialize(payload)).run(...)`: the INSERT column list is the
payload's own key set.  The first key that resolves to no column of the
`events` table (declared columns and the implicit rowid aliases both
resolve) makes SQLite throw `no column named`; a valueless single-letter
tag makes the `events_ai` trigger throw on the NOT NULL `tags_index.value`
column.  `Except.error` carries the (modelled) SQLite message.  A payload
whose extra key is a rowid alias stores the row with the supplied rowid;
SQLite's datatype mismatch for a non-integral explicit rowid value is not
modelled (payload values are not tracked) and no theorem below concerns
such payloads. -/
def insertRow (p : NEvent) : Except String Unit :=
  match p.extra.find? (fun k => !(isEventsColumn k)) with
  | some k => .error ("table events has no column named " ++ k)
  | none =>
    if p.tags.any valuelessSingleLetterTag then
      .error "NOT NULL constraint failed: tags_index.value"
    else .ok ()

/-- `filters.map(f => ({ ...f, ids: [payload.id] }))`. -/
def constrainFilters (fs : List Filter) (eid : String) : List Filter :=
  fs.map fun f => { f with ids := some [eid] }

/-- The fan-out loop of `_handleEvent`: for every registry entry, re-run
`_handleRequest` with the stored filters constrained to the new event id.
The events table is threaded through (each re-run can delete ephemeral
results).  Result: (events table afterwards, per-subscription published
frames in registry order, frames sent directly to the submitting socket). -/
def fanout (ftsM : String → String → Bool) (st : List NEvent)
    (subs : List (String × List Filter)) (eid : String) :
    List NEvent × List (String × List Frame) × List Frame :=
  match subs with
  | [] => (st, [], [])
  | (sid, fs) :: rest =>
    let r := handleRequestFan ftsM st (reqIdOf sid) (constrainFilters fs eid)
    let r2 := fanout ftsM r.2.2 rest eid
    (r2.1, (sid, r.2.1) :: r2.2.1, r.1 ++ r2.2.2)

/-- The write made by an accepted event: INSERT of the new row followed (in
one transaction, when a predecessor exists) by DELETE of the predecessor's
id, as `_handleEvent` does. -/
def insertReplaced (st : List NEvent) (p : NEvent) : List NEvent :=
  let st1 := st ++ [p]
  match replaceTarget st p with
  | some rid => st1.filter fun x => !(x.id == rid)
  | none => st1

/-- `_handleEvent(ws, payload)` for a live websocket.  Result:
(new state, frames sent directly to the submitting socket,
 per-subscription published fan-out frames). -/
def handleEvent (ftsM : String → String → Bool) (verify : NEvent → Bool)
    (npub : String → String) (auth : String → Option (List String))
    (s : RelayState) (p : NEvent) :
    RelayState × List Frame × List (String × List Frame) :=
  match validateEvent verify npub auth p with
  | .error m => (s, [.ok p.id false ("error: " ++ m)], [])
  | .ok false => (s, [.ok p.id false "invalid: not accepted"], [])
  | .ok true =>
    if s.store.any (fun x => x.id == p.id) then
      (s, [.ok p.id false "duplicate"], [])
    else
      match insertRow p with
      | .error m => (s, [.ok p.id false ("error: " ++ m)], [])
      | .ok _ =>
        let fo := fanout ftsM (insertReplaced s.store p) s.subs p.id
        ({ store := fo.1, subs := s.subs },
         [.ok p.id true ""] ++ fo.2.2, fo.2.1)

/-- The sanitizer as claim C8 states it: every character outside
`[A-Za-z0-9_\s]` becomes a single space and every character inside that
class — underscores included — is left unchanged. -/
def sanitizeSpecC8 (s : String) : String :=
  ⟨s.data.map fun c => if jsWordChar c || jsWs c then c else ' '⟩

/-- The §4.5 invariant for (non-parameterizable) replaceable kinds: at most
one stored event per `(pubkey, kind)` pair. -/
def ReplInv (st : List NEvent) : Prop :=
  ∀ pk k, replaceableKind k = true →
    (st.countP fun x => x.pubkey == pk && x.kind == k) ≤ 1

/-! ### C10: connection-close cleanup of the subscription registry

Connection ids are the decimal strings of `ws.data.createdAt` (dash-free
character lists); a registry key is `${wid}-${reqId}`.  The close handler
removes every key `startsWith(String(createdAt))`. -/

def keyOf (c r : List Char) : List Char := c ++ '-' :: r

/-- Decimal connection-id strings contain no dash. -/
abbrev dashFree (c : List Char) : Prop := '-' ∉ c

structure RegState where
  conns : List (List Char)
  reg : List (List Char)

/-- `server.upgrade`: a new connection id becomes live. -/
def openConn (s : RegState) (c : List Char) : RegState :=
  { s with conns := c :: s.conns }

/-- `subIds[subId] = filters` on REQ (JS object keys are a set). -/
def addSub (s : RegState) (c r : List Char) : RegState :=
  { s with reg := if keyOf c r ∈ s.reg then s.reg else s.reg ++ [keyOf c r] }

/-- `delete subIds[subId]` in `_handleClose`. -/
def removeSub (s : RegState) (c r : List Char) : RegState :=
  { s with reg := s.reg.filter fun k => !(k == keyOf c r) }

/-- The websocket `close` handler: the connection dies and every key with
`subId.startsWith(ws.data.createdAt)` is deleted. -/
def closeConn (s : RegState) (c : List Char) : RegState :=
  { conns := s.conns.filter fun x => !(x == c),
    reg := s.reg.filter fun k => !(c.isPrefixOf k) }

/-- The registry operations the server performs. -/
inductive RegStep : RegState → RegState → Prop
  | openC (s : RegState) (c : List Char) (hc : dashFree c) :
      RegStep s (openConn s c)
  | req (s : RegState) (c r : List Char) (hc : c ∈ s.conns) :
      RegStep s (addSub s c r)
  | closeReq (s : RegState) (c r : List Char) (hc : c ∈ s.conns) :
      RegStep s (removeSub s c r)
  | disconnect (s : RegState) (c : List Char) (hc : c ∈ s.conns) :
      RegStep s (closeConn s c)

/-- Every registry entry is owned by a live connection. -/
def Owned (s : RegState) : Prop :=
  ∀ k ∈ s.reg, ∃ c ∈ s.conns, ∃ r, k = keyOf c r


/-! ### Basic lemmas about the query evaluator -/

theorem insertDesc_perm (x : NEvent) (l : List NEvent) :
    (insertDesc x l).Perm (x :: l) := by
  induction l with
  | nil => simp [insertDesc]
  | cons y ys ih =>
    simp only [insertDesc]
    split
    · exact List.Perm.refl _
    · exact (List.Perm.cons y ih).trans (List.Perm.swap x y ys)

theorem sortDesc_perm (l : List NEvent) : (sortDesc l).Perm l := by
  induction l with
  | nil => simp [sortDesc]
  | cons x xs ih =>
    exact (insertDesc_perm x (sortDesc xs)).trans (List.Perm.cons x ih)

theorem mem_applyLimit {f : Filter} {l : List NEvent} {x : NEvent}
    (h : x ∈ applyLimit f l) : x ∈ l := by
  unfold applyLimit at h
  rcases hl : f.limit with _ | n <;> simp only [hl] at h
  · exact h
  · split at h
    · exact h
    · exact List.mem_of_mem_take h

theorem mem_evalFilter {ftsM : String → String → Bool} {st : List NEvent}
    {f : Filter} {x : NEvent} (h : x ∈ evalFilter ftsM st f) :
    x ∈ st ∧ rowMatches ftsM f x = true := by
  unfold evalFilter at h
  have h1 := mem_applyLimit h
  have h2 : x ∈ st.filter (rowMatches ftsM f) := by
    split at h1
    · exact h1
    · exact ((sortDesc_perm _).mem_iff).1 h1
  exact ⟨List.mem_of_mem_filter h2, List.of_mem_filter h2⟩

theorem mem_queryFilters {ftsM : String → String → Bool} {st : List NEvent}
    {fs : List Filter} {x : NEvent} :
    x ∈ queryFilters ftsM st fs ↔ ∃ f ∈ fs, x ∈ evalFilter ftsM st f := by
  simp [queryFilters, List.mem_flatten]

/-- The ids clause of a constrained filter pins the id of every match. -/
theorem rowMatches_constrained_id {ftsM : String → String → Bool} {f : Filter}
    {eid : String} {x : NEvent}
    (h : rowMatches ftsM { f with ids := some [eid] } x = true) : x.id = eid := by
  unfold rowMatches at h
  simp only [Bool.and_eq_true] at h
  have h1 := h.1.1.1.1.1.1
  simp only [List.contains_cons, List.contains_nil, Bool.or_false, beq_iff_eq] at h1
  exact h1

/-- In a store with pairwise-distinct ids, a predicate that pins the id of
every match selects at most the one event `e`. -/
theorem filter_eq_single {st : List NEvent} {e : NEvent} {p : NEvent → Bool}
    (hu : st.Pairwise (fun a b => a.id ≠ b.id)) (he : e ∈ st)
    (hp : ∀ x, p x = true → x.id = e.id) :
    st.filter p = if p e then [e] else [] := by
  induction st with
  | nil => cases he
  | cons h t ih =>
    rcases List.pairwise_cons.1 hu with ⟨hh, ht⟩
    rcases List.mem_cons.1 he with rfl | hmem
    · have ht0 : t.filter p = [] := by
        rw [List.filter_eq_nil_iff]
        intro x hx hpx
        exact hh x hx ((hp x hpx).symm)
      rw [List.filter_cons, ht0]
    · have hph : p h = false := by
        cases hb : p h with
        | false => rfl
        | true => exact absurd (hp h hb) (hh e hmem)
      rw [List.filter_cons, hph]
      simpa using ih ht hmem

theorem applyLimit_singleton (g : Filter) (e : NEvent) :
    applyLimit g [e] = [e] := by
  unfold applyLimit
  rcases g.limit with _ | n
  · rfl
  · rcases n with _ | m
    · rfl
    · simp

theorem applyLimit_nil (g : Filter) : applyLimit g ([] : List NEvent) = [] := by
  unfold applyLimit
  rcases g.limit with _ | n
  · rfl
  · simp

/-- Evaluating a filter whose ids field was replaced by `{e.id}` against a
store with distinct ids yields `[e]` when `e` matches the remaining
constraints and `[]` otherwise. -/
theorem evalFilter_constrained {ftsM : String → String → Bool}
    {st : List NEvent} {e : NEvent} {f : Filter}
    (hu : st.Pairwise (fun a b => a.id ≠ b.id)) (he : e ∈ st) :
    evalFilter ftsM st { f with ids := some [e.id] } =
      if rowMatches ftsM { f with ids := some [e.id] } e then [e] else [] := by
  unfold evalFilter
  rw [filter_eq_single hu he (fun x hx => rowMatches_constrained_id hx)]
  by_cases hm : rowMatches ftsM { f with ids := some [e.id] } e = true
  · rw [if_pos hm]
    have hsort : sortDesc [e] = [e] := rfl
    simp only [hsort, ite_self, applyLimit_singleton]
  · rw [if_neg hm]
    have hsort : sortDesc ([] : List NEvent) = [] := rfl
    simp only [hsort, ite_self, applyLimit_nil]

/-! ### Uniqueness and membership helpers -/

theorem eq_of_id_eq {st : List NEvent} {x e : NEvent}
    (hu : st.Pairwise (fun a b => a.id ≠ b.id)) (hx : x ∈ st) (he : e ∈ st)
    (hid : x.id = e.id) : x = e := by
  induction st with
  | nil => cases hx
  | cons h t ih =>
    rcases List.pairwise_cons.1 hu with ⟨hh, ht⟩
    rcases List.mem_cons.1 hx with rfl | hx' <;> rcases List.mem_cons.1 he with rfl | he'
    · rfl
    · exact absurd hid (hh e he')
    · exact absurd hid.symm (hh x hx')
    · exact ih ht hx' he'

theorem applyLimit_sublist (f : Filter) (l : List NEvent) :
    (applyLimit f l).Sublist l := by
  unfold applyLimit
  rcases f.limit with _ | n
  · exact List.Sublist.refl l
  · by_cases hn : (n == 0) = true
    · simp only [if_pos hn]
      exact List.Sublist.refl l
    · simp only [if_neg hn]
      exact List.take_sublist n l

theorem count_evalFilter_le (ftsM : String → String → Bool) (st : List NEvent)
    (f : Filter) (x : NEvent) :
    (evalFilter ftsM st f).count x ≤ st.count x := by
  unfold evalFilter
  refine le_trans ((applyLimit_sublist f _).count_le x) ?_
  have h2 : ∀ l : List NEvent,
      (if searchIsTruthy f = true then l else sortDesc l).count x = l.count x := by
    intro l
    split
    · rfl
    · exact (sortDesc_perm l).count_eq x
  rw [h2]
  exact (List.filter_sublist st).count_le x

/-! ### Fan-out lemmas -/

theorem gateOk_constrain (f : Filter) (l : List String) :
    gateOk { f with ids := some l } = gateOk f := rfl

theorem afterEphemeral_of_none {st evs : List NEvent}
    (h : ∀ x ∈ evs, isEphemeral x.kind = false) : afterEphemeral st evs = st := by
  unfold afterEphemeral
  have h0 : evs.filter (fun e => isEphemeral e.kind) = [] := by
    rw [List.filter_eq_nil_iff]
    intro x hx
    simp [h x hx]
  simp [h0]

theorem afterEphemeral_sublist (st evs : List NEvent) :
    (afterEphemeral st evs).Sublist st := by
  simp only [afterEphemeral]
  split
  · exact List.Sublist.refl st
  · exact List.filter_sublist st

theorem mem_queryFilters_id {ftsM : String → String → Bool} {st : List NEvent}
    {fs : List Filter} {eid : String} {x : NEvent}
    (h : x ∈ queryFilters ftsM st (constrainFilters fs eid)) :
    x ∈ st ∧ x.id = eid := by
  rcases mem_queryFilters.1 h with ⟨g, hg, hx⟩
  rcases List.mem_map.1 hg with ⟨f, _, rfl⟩
  have h2 := mem_evalFilter hx
  exact ⟨h2.1, rowMatches_constrained_id h2.2⟩

/-- When no event of the store that carries the constrained id is ephemeral,
one fan-out re-run leaves the events table untouched and publishes exactly
the constrained query results. -/
theorem handleRequestFan_constrained {ftsM : String → String → Bool}
    {st : List NEvent} {reqId : String} {fs : List Filter} {eid : String}
    (hg : ∀ f ∈ fs, gateOk f = true)
    (hne : ∀ x ∈ st, x.id = eid → isEphemeral x.kind = false) :
    handleRequestFan ftsM st reqId (constrainFilters fs eid) =
      ([], (queryFilters ftsM st (constrainFilters fs eid)).map (Frame.event reqId),
       st) := by
  have hgate : (constrainFilters fs eid).any (fun f => !(gateOk f)) = false := by
    rw [List.any_eq_false]
    intro f hf
    rcases List.mem_map.1 hf with ⟨g, hgmem, rfl⟩
    simp [gateOk_constrain, hg g hgmem]
  have heph : afterEphemeral st (queryFilters ftsM st (constrainFilters fs eid)) = st := by
    refine afterEphemeral_of_none ?_
    intro x hx
    exact hne x (mem_queryFilters_id hx).1 (mem_queryFilters_id hx).2
  simp only [handleRequestFan, hgate]
  simp [heph]

theorem handleRequestFan_store_sublist (ftsM : String → String → Bool)
    (st : List NEvent) (reqId : String) (fs : List Filter) :
    ((handleRequestFan ftsM st reqId fs).2.2).Sublist st := by
  simp only [handleRequestFan]
  split
  · exact List.Sublist.refl st
  · exact afterEphemeral_sublist st _

/-- Under the registration invariant (all stored filter sets pass the
admission gate) and for a non-ephemeral constrained id, the fan-out leaves
the store untouched, publishes to every subscription exactly the results of
re-running the request handler on its constrained filter set, and sends
nothing directly to the submitter. -/
theorem fanout_eq {ftsM : String → String → Bool} {st : List NEvent}
    {subs : List (String × List Filter)} {eid : String}
    (hg : ∀ q ∈ subs, ∀ f ∈ q.2, gateOk f = true)
    (hne : ∀ x ∈ st, x.id = eid → isEphemeral x.kind = false) :
    fanout ftsM st subs eid =
      (st,
       subs.map (fun q =>
         (q.1, (queryFilters ftsM st (constrainFilters q.2 eid)).map
                 (Frame.event (reqIdOf q.1)))),
       []) := by
  induction subs with
  | nil => rfl
  | cons q rest ih =>
    have hq : ∀ f ∈ q.2, gateOk f = true := hg q (List.mem_cons_self q rest)
    have hrest : ∀ r ∈ rest, ∀ f ∈ r.2, gateOk f = true :=
      fun r hr => hg r (List.mem_cons_of_mem q hr)
    rcases q with ⟨sid, fs⟩
    simp only [fanout, handleRequestFan_constrained hq hne]
    simp [ih hrest]

/-- Without any hypotheses, a fan-out pass can only delete rows: the final
events table is a sublist of the initial one. -/
theorem fanout_store_sublist (ftsM : String → String → Bool) (st : List NEvent)
    (subs : List (String × List Filter)) (eid : String) :
    ((fanout ftsM st subs eid).1).Sublist st := by
  induction subs generalizing st with
  | nil => exact List.Sublist.refl st
  | cons q rest ih =>
    rcases q with ⟨sid, fs⟩
    simp only [fanout]
    exact List.Sublist.trans (ih _) (handleRequestFan_store_sublist ftsM st _ _)

/-- When no event of the store carrying the constrained id is ephemeral, the
whole fan-out leaves the events table unchanged. -/
theorem fanout_store_eq {ftsM : String → String → Bool} {st : List NEvent}
    {subs : List (String × List Filter)} {eid : String}
    (hne : ∀ x ∈ st, x.id = eid → isEphemeral x.kind = false) :
    (fanout ftsM st subs eid).1 = st := by
  induction subs with
  | nil => rfl
  | cons q rest ih =>
    rcases q with ⟨sid, fs⟩
    have hst : (handleRequestFan ftsM st (reqIdOf sid) (constrainFilters fs eid)).2.2
        = st := by
      simp only [handleRequestFan]
      split
      · rfl
      · refine afterEphemeral_of_none ?_
        intro x hx
        exact hne x (mem_queryFilters_id hx).1 (mem_queryFilters_id hx).2
    simp only [fanout, hst]
    exact ih

/-! ### C5: admission gate -/

/-- C5: For every REQ whose filter set contains a filter that does not
constrain `kinds` to include at least one allow-listed kind, the websocket
path sends exactly a CLOSED frame with an empty reason and changes nothing
(no registration, no query, no deletion), and the REST path returns no rows
and leaves the events table unchanged. -/
theorem c5_admission_gate (ftsM : String → String → Bool) (s : RelayState)
    (connId reqId : String) (fs : List Filter) (f : Filter)
    (hf : f ∈ fs) (hbad : gateOk f = false) :
    handleRequestWs ftsM s connId reqId fs = (s, [Frame.closed reqId ""]) ∧
    handleRequestRest ftsM s.store fs = ([], s.store) := by
  have hany : (fs.any fun g => !(gateOk g)) = true :=
    List.any_eq_true.2 ⟨f, hf, by simp [hbad]⟩
  constructor
  · simp only [handleRequestWs, hany, if_true]
  · simp only [handleRequestRest, hany, if_true]

/-- Witness for C5 at a concrete kinds-free filter. -/
theorem c5_admission_gate_witness :
    handleRequestWs (fun _ _ => false) (RelayState.mk [] []) "1" "r" [{}] =
      (RelayState.mk [] [], [Frame.closed "r" ""]) ∧
    handleRequestRest (fun _ _ => false) [] [{}] = ([], []) :=
  c5_admission_gate (fun _ _ => false) (RelayState.mk [] []) "1" "r" [{}] {}
    (by simp) (by decide)

/-! ### C8: search sanitization -/

/-- Counterexample to C8 as stated: on the search string `"a_b"` the string
the code passes to the FTS engine is `"a b"`, not the `"a_b"` the claim's
rule produces — the regex `/[^\w\s]|_/` also replaces underscores.  An FTS
oracle that matches exactly the query string `"a b"` observes this through
the row predicate. -/
theorem c8_counterexample :
    sanitize "a_b" = "a b" ∧
    sanitizeSpecC8 "a_b" = "a_b" ∧
    sanitize "a_b" ≠ sanitizeSpecC8 "a_b" ∧
    rowMatches (fun q _ => q == "a b") { search := some "a_b" }
      (NEvent.mk "i" "p" "s" 1 0 "" [] []) = true := by
  refine ⟨by decide, by decide, by decide, by decide⟩

/-- C8 (amended): the string passed to the FTS engine replaces every
character that is not alphanumeric and not whitespace — underscores
included — by a single space; consequently a search for `"a!b"` produces
exactly the same query results as a search for `"a b"`. -/
theorem c8_search_sanitization :
    (∀ s : String,
      sanitize s = ⟨s.data.map fun c => if c.isAlphanum || jsWs c then c else ' '⟩) ∧
    (∀ (ftsM : String → String → Bool) (st : List NEvent) (f : Filter),
      evalFilter ftsM st { f with search := some "a!b" } =
        evalFilter ftsM st { f with search := some "a b" }) := by
  constructor
  · intro s
    unfold sanitize
    have hfun : (fun c => if !(jsWordChar c || jsWs c) || c == '_' then ' ' else c)
        = fun c : Char => if c.isAlphanum || jsWs c then c else ' ' := by
      funext c
      by_cases hu : c = '_'
      · subst hu
        decide
      · have hb : (c == '_') = false := beq_eq_false_iff_ne.2 hu
        simp only [jsWordChar, hb, Bool.or_false]
        cases hA : c.isAlphanum <;> cases hW : jsWs c <;> simp [hA, hW]
    rw [hfun]
  · intro ftsM st f
    have hrow : ∀ e, rowMatches ftsM { f with search := some "a!b" } e =
        rowMatches ftsM { f with search := some "a b" } e := by
      intro e
      unfold rowMatches
      have h1 : sanitize "a!b" = sanitize "a b" := by decide
      have h2 : ("a!b".length == 2) = false := by decide
      have h3 : ("a b".length == 2) = false := by decide
      simp only [h2, h3, Bool.false_eq_true, if_false, h1]
    unfold evalFilter
    rw [List.filter_congr fun x _ => hrow x]
    rfl

/-! ### C1: fan-out delivery vs. historical query -/

/-- Counterexample to C1 as stated: a subscription whose filter has
`ids = ["aa"]` and `kinds = [1011]`.  A newly written event with id `"bb"`
and kind 1011 is delivered by the fan-out (because the fan-out replaces the
filter's `ids` with the new id), yet it does not appear in the historical
response to a fresh REQ with the original filter set, whose ids constraint
excludes it.  So delivery is not equivalent to membership in the historical
response for the *unmodified* filter set. -/
theorem c1_counterexample :
    (fanout (fun _ _ => false)
        [NEvent.mk "bb" "P" "sg" 1011 5 "" [] []]
        [("1-s1", [{ ids := some ["aa"], kinds := some [1011] }])] "bb").2.1 =
      [("1-s1", [Frame.event "s1" (NEvent.mk "bb" "P" "sg" 1011 5 "" [] [])])] ∧
    (handleRequestRest (fun _ _ => false)
        [NEvent.mk "bb" "P" "sg" 1011 5 "" [] []]
        [{ ids := some ["aa"], kinds := some [1011] }]).1 = [] := by
  refine ⟨by decide, by decide⟩

/-- C1 (amended): for a store with distinct ids, a newly written
non-ephemeral event `e` already inserted into the store, and registered
filter sets that passed the admission gate, the fan-out leaves the store
unchanged, sends nothing directly to the submitter, and publishes to each
subscription exactly the EVENT frames of re-running the request handler on
the subscription's filter set with every filter's `ids` field replaced by
`{e.id}` (all other fields kept); `e` is delivered to a subscription iff
`e` appears in the historical response to a fresh REQ with that constrained
filter set, i.e. iff some stored filter matches `e` after the ids
replacement. -/
theorem c1_fanout_delivery (ftsM : String → String → Bool) (st : List NEvent)
    (subs : List (String × List Filter)) (e : NEvent)
    (hu : st.Pairwise fun a b => a.id ≠ b.id) (he : e ∈ st)
    (hne : isEphemeral e.kind = false)
    (hg : ∀ q ∈ subs, ∀ f ∈ q.2, gateOk f = true) :
    fanout ftsM st subs e.id =
      (st,
       subs.map (fun q =>
         (q.1, (queryFilters ftsM st (constrainFilters q.2 e.id)).map
                 (Frame.event (reqIdOf q.1)))),
       []) ∧
    ∀ q ∈ subs,
      (e ∈ queryFilters ftsM st (constrainFilters q.2 e.id) ↔
        ∃ f ∈ q.2, rowMatches ftsM { f with ids := some [e.id] } e = true) := by
  have hne' : ∀ x ∈ st, x.id = e.id → isEphemeral x.kind = false := by
    intro x hx hid
    rw [eq_of_id_eq hu hx he hid]
    exact hne
  refine ⟨fanout_eq hg hne', ?_⟩
  intro q _
  constructor
  · intro hmem
    rcases mem_queryFilters.1 hmem with ⟨g, hgmem, hx⟩
    rcases List.mem_map.1 hgmem with ⟨f, hf, rfl⟩
    rw [evalFilter_constrained hu he] at hx
    split at hx
    · rename_i hm
      exact ⟨f, hf, hm⟩
    · cases hx
  · rintro ⟨f, hf, hm⟩
    refine mem_queryFilters.2 ⟨{ f with ids := some [e.id] },
      List.mem_map.2 ⟨f, hf, rfl⟩, ?_⟩
    rw [evalFilter_constrained hu he, if_pos hm]
    exact List.mem_singleton.2 rfl

/-- Witness for C1 (amended) at a concrete store and subscription. -/
theorem c1_fanout_delivery_witness :
    fanout (fun _ _ => false)
        [NEvent.mk "bb" "P" "sg" 1011 5 "" [] []]
        [("1-s1", [{ kinds := some [1011] }])]
        (NEvent.mk "bb" "P" "sg" 1011 5 "" [] []).id =
      ([NEvent.mk "bb" "P" "sg" 1011 5 "" [] []],
       [("1-s1",
         (queryFilters (fun _ _ => false)
             [NEvent.mk "bb" "P" "sg" 1011 5 "" [] []]
             (constrainFilters [{ kinds := some [1011] }]
               (NEvent.mk "bb" "P" "sg" 1011 5 "" [] []).id)).map
           (Frame.event (reqIdOf "1-s1")))],
       []) ∧
    (NEvent.mk "bb" "P" "sg" 1011 5 "" [] [] ∈
        queryFilters (fun _ _ => false)
          [NEvent.mk "bb" "P" "sg" 1011 5 "" [] []]
          (constrainFilters [{ kinds := some [1011] }]
            (NEvent.mk "bb" "P" "sg" 1011 5 "" [] []).id) ↔
      ∃ f ∈ [({ kinds := some [1011] } : Filter)],
        rowMatches (fun _ _ => false)
          { f with ids := some [(NEvent.mk "bb" "P" "sg" 1011 5 "" [] []).id] }
          (NEvent.mk "bb" "P" "sg" 1011 5 "" [] []) = true) := by
  have h := c1_fanout_delivery (fun _ _ => false)
    [NEvent.mk "bb" "P" "sg" 1011 5 "" [] []]
    [("1-s1", [{ kinds := some [1011] }])]
    (NEvent.mk "bb" "P" "sg" 1011 5 "" [] [])
    (by simp) (by simp) (by decide) (by decide)
  exact ⟨h.1, h.2 ("1-s1", [{ kinds := some [1011] }]) (by simp)⟩

/-! ### C6: validator / publisher policy -/

/-- C6: for an event with a valid signature, the validator accepts iff the
publisher's npub is in the static allow-list and: an empty entry accepts any
kind; a non-empty entry accepts a kind-30063 event iff its d-tag is present
and begins with one of the listed prefixes, a kind-32267 event iff its d-tag
is present and exactly equals one of the listed values, and any other kind
unconditionally.  (A kind-30063 event without a d-tag makes the validator
throw — `undefined.startsWith` — which is not an acceptance.) -/
theorem c6_validator_policy (verify : NEvent → Bool) (npub : String → String)
    (auth : String → Option (List String)) (p : NEvent)
    (hv : verify p = true) :
    validateEvent verify npub auth p = .ok true ↔
      ∃ entry, auth (npub p.pubkey) = some entry ∧
        (entry = [] ∨
         (p.kind = 30063 ∧ ∃ d, firstTag p.tags "d" = some d ∧
            (entry.any fun pre => d.startsWith pre) = true) ∨
         (p.kind ≠ 30063 ∧ p.kind = 32267 ∧
            ∃ d, firstTag p.tags "d" = some d ∧ d ∈ entry) ∨
         (p.kind ≠ 30063 ∧ p.kind ≠ 32267)) := by
  unfold validateEvent
  rw [hv]
  simp only [Bool.not_true, Bool.false_eq_true, if_false]
  rcases hauth : auth (npub p.pubkey) with _ | entry
  · simp
  rcases hd : firstTag p.tags "d" with _ | d <;>
    rcases entry with _ | ⟨a, rest⟩ <;>
      by_cases hk1 : p.kind = 30063 <;>
        by_cases hk2 : p.kind = 32267
  any_goals exact absurd (hk1.symm.trans hk2) (by decide)
  all_goals
    simp [hk1, hk2, hd, Except.ok.injEq, beq_iff_eq, List.any_eq_true]
  all_goals exact or_congr eq_comm Iff.rfl

/-- Witness for C6: an unrestricted publisher posting an arbitrary kind. -/
theorem c6_validator_policy_witness :
    validateEvent (fun _ => true) (fun s => "npub" ++ s)
        (fun s => if s == "npubP" then some [] else none)
        (NEvent.mk "e1" "P" "s" 1 0 "" [] []) = .ok true :=
  (c6_validator_policy (fun _ => true) (fun s => "npub" ++ s)
      (fun s => if s == "npubP" then some [] else none)
      (NEvent.mk "e1" "P" "s" 1 0 "" [] []) rfl).mpr
    ⟨[], by decide, Or.inl rfl⟩

/-! ### Write-path lemmas -/

theorem handleEvent_dup {ftsM : String → String → Bool} {verify : NEvent → Bool}
    {npub : String → String} {auth : String → Option (List String)}
    {s : RelayState} {p : NEvent}
    (hv : validateEvent verify npub auth p = .ok true)
    (hdup : ∃ x ∈ s.store, x.id = p.id) :
    handleEvent ftsM verify npub auth s p =
      (s, [Frame.ok p.id false "duplicate"], []) := by
  have hany : (s.store.any fun x => x.id == p.id) = true := by
    rcases hdup with ⟨x, hx, hid⟩
    exact List.any_eq_true.2 ⟨x, hx, by simp [hid]⟩
  simp [handleEvent, hv, hany]

theorem handleEvent_accepted {ftsM : String → String → Bool}
    {verify : NEvent → Bool} {npub : String → String}
    {auth : String → Option (List String)} {s : RelayState} {p : NEvent}
    (hv : validateEvent verify npub auth p = .ok true)
    (hfresh : ∀ x ∈ s.store, x.id ≠ p.id)
    (hins : insertRow p = .ok ()) :
    handleEvent ftsM verify npub auth s p =
      ({ store := (fanout ftsM (insertReplaced s.store p) s.subs p.id).1,
         subs := s.subs },
       [Frame.ok p.id true ""] ++
         (fanout ftsM (insertReplaced s.store p) s.subs p.id).2.2,
       (fanout ftsM (insertReplaced s.store p) s.subs p.id).2.1) := by
  have hany : (s.store.any fun x => x.id == p.id) = false := by
    rw [List.any_eq_false]
    intro x hx
    simp [hfresh x hx]
  simp [handleEvent, hv, hany, hins]

theorem replaceTarget_mem {st : List NEvent} {p : NEvent} {rid : String}
    (h : replaceTarget st p = some rid) : ∃ q ∈ st, q.id = rid := by
  simp only [replaceTarget] at h
  split at h
  · split at h
    · rcases Option.map_eq_some'.1 h with ⟨q, hq, rfl⟩
      exact ⟨q, List.mem_of_find?_eq_some hq, rfl⟩
    · rcases Option.map_eq_some'.1 h with ⟨q, hq, rfl⟩
      exact ⟨q, List.mem_of_find?_eq_some hq, rfl⟩
  · cases h

/-- Every event of the written store that carries the new id is the new
event itself (the duplicate check guarantees the id was fresh). -/
theorem mem_insertReplaced_id {st : List NEvent} {p x : NEvent}
    (hfresh : ∀ y ∈ st, y.id ≠ p.id) (hx : x ∈ insertReplaced st p)
    (hid : x.id = p.id) : x = p := by
  unfold insertReplaced at hx
  have hx1 : x ∈ st ++ [p] := by
    rcases hrt : replaceTarget st p with _ | rid <;> rw [hrt] at hx
    · exact hx
    · exact List.mem_of_mem_filter hx
  rcases List.mem_append.1 hx1 with hmem | hmem
  · exact absurd hid (hfresh x hmem)
  · simpa using hmem

theorem insertReplaced_filter_id {st : List NEvent} {p : NEvent}
    (hfresh : ∀ x ∈ st, x.id ≠ p.id) :
    ((insertReplaced st p).filter fun x => x.id == p.id) = [p] := by
  have hst : (st.filter fun x => x.id == p.id) = [] := by
    rw [List.filter_eq_nil_iff]
    intro x hx
    simp [hfresh x hx]
  unfold insertReplaced
  rcases hrt : replaceTarget st p with _ | rid
  · rw [List.filter_append, hst]
    simp
  · rcases replaceTarget_mem hrt with ⟨q, hq, rfl⟩
    rw [List.filter_filter, List.filter_append, List.filter_cons]
    have h1 : (st.filter fun a => a.id == p.id && !(a.id == q.id)) = [] := by
      rw [List.filter_eq_nil_iff]
      intro x hx
      simp [hfresh x hx]
    have h2 : (p.id == p.id && !(p.id == q.id)) = true := by
      have : q.id ≠ p.id := hfresh q hq
      simp [this, Ne.symm this]
    rw [h1, h2]
    simp

theorem mem_insertReplaced_self {st : List NEvent} {p : NEvent}
    (hfresh : ∀ x ∈ st, x.id ≠ p.id) : p ∈ insertReplaced st p := by
  have h := insertReplaced_filter_id hfresh
  have : p ∈ (insertReplaced st p).filter fun x => x.id == p.id := by
    rw [h]
    simp
  exact List.mem_of_mem_filter this

/-! ### C2: duplicate handling and idempotence -/

/-- Counterexample to C2 as stated: an *ephemeral* (kind-20000) event
matched by a live subscription is deleted again by the fan-out's
post-delivery ephemeral cleanup, so resubmitting the identical event is
accepted a second time with OK-true — not OK-false-"duplicate". -/
theorem c2_counterexample :
    (handleEvent (fun _ _ => false) (fun _ => true) (fun s => "npub" ++ s)
        (fun s => if s == "npubP" then some [] else none)
        (RelayState.mk [] [("7-s1", [{ kinds := some [1011, 20000] }])])
        (NEvent.mk "e1" "P" "s" 20000 1 "" [] [])).2.1 =
      [Frame.ok "e1" true ""] ∧
    (handleEvent (fun _ _ => false) (fun _ => true) (fun s => "npub" ++ s)
        (fun s => if s == "npubP" then some [] else none)
        (handleEvent (fun _ _ => false) (fun _ => true) (fun s => "npub" ++ s)
          (fun s => if s == "npubP" then some [] else none)
          (RelayState.mk [] [("7-s1", [{ kinds := some [1011, 20000] }])])
          (NEvent.mk "e1" "P" "s" 20000 1 "" [] [])).1
        (NEvent.mk "e1" "P" "s" 20000 1 "" [] [])).2.1 =
      [Frame.ok "e1" true ""] := by
  refine ⟨by decide, by decide⟩

/-- C2 (amended): a valid submission whose id already exists in the events
table is answered OK-false-"duplicate" with no insert, no delete and no
fan-out.  Consequently submitting the same valid event twice yields one
OK-true then one OK-false-"duplicate" with exactly one stored copy,
*provided* the stored copy is not removed in between by the fan-out's
ephemeral cleanup — in particular whenever the event is not of an ephemeral
kind. -/
theorem c2_duplicate_idempotence :
    (∀ (ftsM : String → String → Bool) (verify : NEvent → Bool)
        (npub : String → String) (auth : String → Option (List String))
        (s : RelayState) (p : NEvent),
      validateEvent verify npub auth p = .ok true →
      (∃ x ∈ s.store, x.id = p.id) →
      handleEvent ftsM verify npub auth s p =
        (s, [Frame.ok p.id false "duplicate"], [])) ∧
    (∀ (ftsM : String → String → Bool) (verify : NEvent → Bool)
        (npub : String → String) (auth : String → Option (List String))
        (s : RelayState) (p : NEvent),
      validateEvent verify npub auth p = .ok true →
      insertRow p = .ok () →
      isEphemeral p.kind = false →
      (∀ x ∈ s.store, x.id ≠ p.id) →
      (handleEvent ftsM verify npub auth s p).2.1.head? =
          some (Frame.ok p.id true "") ∧
      ((handleEvent ftsM verify npub auth s p).1.store.filter
          fun x => x.id == p.id) = [p] ∧
      handleEvent ftsM verify npub auth
          (handleEvent ftsM verify npub auth s p).1 p =
        ((handleEvent ftsM verify npub auth s p).1,
         [Frame.ok p.id false "duplicate"], [])) := by
  constructor
  · intro ftsM verify npub auth s p hv hdup
    exact handleEvent_dup hv hdup
  · intro ftsM verify npub auth s p hv hins hneph hfresh
    have hacc : handleEvent ftsM verify npub auth s p =
        ({ store := (fanout ftsM (insertReplaced s.store p) s.subs p.id).1,
           subs := s.subs },
         [Frame.ok p.id true ""] ++
           (fanout ftsM (insertReplaced s.store p) s.subs p.id).2.2,
         (fanout ftsM (insertReplaced s.store p) s.subs p.id).2.1) :=
      handleEvent_accepted hv hfresh hins
    have hne' : ∀ x ∈ insertReplaced s.store p, x.id = p.id →
        isEphemeral x.kind = false := by
      intro x hx hid
      rw [mem_insertReplaced_id hfresh hx hid]
      exact hneph
    have hfan : (fanout ftsM (insertReplaced s.store p) s.subs p.id).1 =
        insertReplaced s.store p := fanout_store_eq hne'
    refine ⟨?_, ?_, ?_⟩
    · rw [hacc]
      rfl
    · rw [hacc]
      simp only [hfan]
      exact insertReplaced_filter_id hfresh
    · have hdup2 : ∃ x ∈ (handleEvent ftsM verify npub auth s p).1.store,
          x.id = p.id := by
        rw [hacc]
        simp only [hfan]
        exact ⟨p, mem_insertReplaced_self hfresh, rfl⟩
      exact handleEvent_dup hv hdup2

/-- Witness for C2 at concrete events (a stored duplicate, and a fresh
kind-1 submission through both calls). -/
theorem c2_duplicate_idempotence_witness :
    (handleEvent (fun _ _ => false) (fun _ => true) (fun s => "npub" ++ s)
        (fun s => if s == "npubP" then some [] else none)
        (RelayState.mk [NEvent.mk "e1" "P" "s" 1 1 "" [] []] [])
        (NEvent.mk "e1" "P" "s" 1 1 "" [] []) =
      (RelayState.mk [NEvent.mk "e1" "P" "s" 1 1 "" [] []] [],
       [Frame.ok "e1" false "duplicate"], [])) ∧
    ((handleEvent (fun _ _ => false) (fun _ => true) (fun s => "npub" ++ s)
        (fun s => if s == "npubP" then some [] else none)
        (RelayState.mk [] []) (NEvent.mk "e1" "P" "s" 1 1 "" [] [])).2.1.head? =
      some (Frame.ok "e1" true "")) := by
  constructor
  · exact c2_duplicate_idempotence.1 (fun _ _ => false) (fun _ => true)
      (fun s => "npub" ++ s) (fun s => if s == "npubP" then some [] else none)
      (RelayState.mk [NEvent.mk "e1" "P" "s" 1 1 "" [] []] [])
      (NEvent.mk "e1" "P" "s" 1 1 "" [] []) rfl
      ⟨NEvent.mk "e1" "P" "s" 1 1 "" [] [], by simp, rfl⟩
  · exact (c2_duplicate_idempotence.2 (fun _ _ => false) (fun _ => true)
      (fun s => "npub" ++ s) (fun s => if s == "npubP" then some [] else none)
      (RelayState.mk [] []) (NEvent.mk "e1" "P" "s" 1 1 "" [] [])
      rfl rfl (by decide) (by simp)).1

/-! ### C3: replaceable kinds keep at most one event per (pubkey, kind) -/

theorem replaceable_not_param {k : Int} (h : replaceableKind k = true) :
    paramKind k = false := by
  simp only [replaceableKind, Bool.or_eq_true, Bool.and_eq_true, beq_iff_eq,
    decide_eq_true_eq] at h
  simp only [paramKind, Bool.and_eq_true, decide_eq_true_eq]
  by_contra hc
  rw [Bool.not_eq_false, Bool.and_eq_true] at hc
  simp only [decide_eq_true_eq] at hc
  omega

theorem replaceable_not_ephemeral {k : Int} (h : replaceableKind k = true) :
    isEphemeral k = false := by
  simp only [replaceableKind, Bool.or_eq_true, Bool.and_eq_true, beq_iff_eq,
    decide_eq_true_eq] at h
  simp only [isEphemeral]
  by_contra hc
  rw [Bool.not_eq_false, Bool.and_eq_true] at hc
  simp only [decide_eq_true_eq] at hc
  omega

theorem param_not_ephemeral {k : Int} (h : paramKind k = true) :
    isEphemeral k = false := by
  simp only [paramKind, Bool.and_eq_true, decide_eq_true_eq] at h
  simp only [isEphemeral]
  by_contra hc
  rw [Bool.not_eq_false, Bool.and_eq_true] at hc
  simp only [decide_eq_true_eq] at hc
  omega

/-- If a predicate holds of at most one list entry and `q` is such an entry,
no entry satisfies the predicate while carrying a different id. -/
theorem countP_and_ne_zero {st : List NEvent} {pr : NEvent → Bool} {q : NEvent}
    (hle : st.countP pr ≤ 1) (hq : q ∈ st) (hpq : pr q = true) :
    (st.countP fun x => pr x && !(x.id == q.id)) = 0 := by
  rw [List.countP_eq_zero]
  intro x hx hcontra
  rw [Bool.and_eq_true] at hcontra
  obtain ⟨hpx, hne⟩ := hcontra
  have hxq : x ≠ q := by
    intro h
    subst h
    simp at hne
  have hperm := (List.perm_cons_erase hq).countP_eq pr
  have hx' : x ∈ st.erase q := (List.mem_erase_of_ne hxq).2 hx
  have hpos : 0 < (st.erase q).countP pr := List.countP_pos_iff.2 ⟨x, hx', hpx⟩
  rw [List.countP_cons] at hperm
  simp only [hpq, if_true] at hperm
  omega

theorem insertReplaced_sublist (st : List NEvent) (p : NEvent) :
    (insertReplaced st p).Sublist (st ++ [p]) := by
  unfold insertReplaced
  rcases replaceTarget st p with _ | rid
  · exact List.Sublist.refl _
  · exact List.filter_sublist _

theorem replInv_sublist {st st' : List NEvent} (h : st'.Sublist st)
    (hInv : ReplInv st) : ReplInv st' := by
  intro pk k hk
  exact le_trans (h.countP_le _) (hInv pk k hk)

theorem replInv_insertReplaced {st : List NEvent} {p : NEvent}
    (hInv : ReplInv st) (hfresh : ∀ x ∈ st, x.id ≠ p.id) :
    ReplInv (insertReplaced st p) := by
  intro pk k hk
  by_cases hp : (p.pubkey == pk && p.kind == k) = true
  · have hp' := hp
    rw [Bool.and_eq_true] at hp'
    obtain ⟨hpk2, hpkind⟩ := hp'
    rw [beq_iff_eq] at hpk2 hpkind
    subst hpk2
    subst hpkind
    have hnp : paramKind p.kind = false := replaceable_not_param hk
    unfold insertReplaced
    rcases hfind : st.find? (fun x => x.pubkey == p.pubkey && x.kind == p.kind)
        with _ | q
    · have hrt : replaceTarget st p = none := by
        simp [replaceTarget, hk, hnp, hfind]
      rw [hrt]
      have h0 : (st.countP fun x => x.pubkey == p.pubkey && x.kind == p.kind) = 0 := by
        rw [List.countP_eq_zero]
        exact List.find?_eq_none.1 hfind
      rw [List.countP_append, h0]
      simp [List.countP_cons]
    · have hrt : replaceTarget st p = some q.id := by
        simp [replaceTarget, hk, hnp, hfind]
      rw [hrt]
      have hqmem := List.mem_of_find?_eq_some hfind
      have hqpred := List.find?_some hfind
      rw [List.countP_filter, List.countP_append]
      have hA : (st.countP fun x =>
          (x.pubkey == p.pubkey && x.kind == p.kind) && !(x.id == q.id)) = 0 :=
        countP_and_ne_zero (hInv p.pubkey p.kind hk) hqmem hqpred
      have hB : ([p].countP fun x =>
          (x.pubkey == p.pubkey && x.kind == p.kind) && !(x.id == q.id)) ≤ 1 := by
        refine le_trans (List.countP_le_length _) ?_
        simp
      omega
  · have hsub := insertReplaced_sublist st p
    refine le_trans (hsub.countP_le _) ?_
    rw [List.countP_append]
    have hp0 : ([p].countP fun x => x.pubkey == pk && x.kind == k) = 0 := by
      rw [List.countP_eq_zero]
      intro a ha
      rw [List.mem_singleton] at ha
      subst ha
      simp [hp]
    rw [hp0]
    have := hInv pk k hk
    omega

/-- After an accepted replaceable write the pair's unique holder is the new
event. -/
theorem insertReplaced_filter_pair {st : List NEvent} {p : NEvent}
    (hInv : ReplInv st) (hfresh : ∀ x ∈ st, x.id ≠ p.id)
    (hrepl : replaceableKind p.kind = true) :
    ((insertReplaced st p).filter
        fun x => x.pubkey == p.pubkey && x.kind == p.kind) = [p] := by
  have hnp : paramKind p.kind = false := replaceable_not_param hrepl
  unfold insertReplaced
  rcases hfind : st.find? (fun x => x.pubkey == p.pubkey && x.kind == p.kind)
      with _ | q
  · have hrt : replaceTarget st p = none := by
      simp [replaceTarget, hrepl, hnp, hfind]
    rw [hrt]
    rw [List.filter_append]
    have h0 : (st.filter fun x => x.pubkey == p.pubkey && x.kind == p.kind) = [] := by
      rw [List.filter_eq_nil_iff]
      exact List.find?_eq_none.1 hfind
    rw [h0]
    simp
  · have hrt : replaceTarget st p = some q.id := by
      simp [replaceTarget, hrepl, hnp, hfind]
    rw [hrt]
    have hqmem := List.mem_of_find?_eq_some hfind
    have hqpred := List.find?_some hfind
    rw [List.filter_filter, List.filter_append]
    have hA : (st.filter fun x =>
        (x.pubkey == p.pubkey && x.kind == p.kind) && !(x.id == q.id)) = [] := by
      rw [List.filter_eq_nil_iff]
      intro x hx hc
      have h0 := countP_and_ne_zero (hInv p.pubkey p.kind hrepl) hqmem hqpred
      rw [List.countP_eq_zero] at h0
      exact h0 x hx hc
    have hB : ([p].filter fun x =>
        (x.pubkey == p.pubkey && x.kind == p.kind) && !(x.id == q.id)) = [p] := by
      have hqp : q.id ≠ p.id := hfresh q hqmem
      simp [Ne.symm hqp]
    rw [hA, hB]
    rfl

/-- Counterexample to C3 as stated: from the same publisher, a kind-10000
event with `created_at = 2000` followed by one with `created_at = 1000`.
The retained event is the second (most recently submitted) one although it
is strictly older by `created_at` — replacement follows submission order,
not `created_at` order. -/
theorem c3_counterexample :
    (handleEvent (fun _ _ => false) (fun _ => true) (fun s => "npub" ++ s)
        (fun s => if s == "npubP" then some [] else none)
        (handleEvent (fun _ _ => false) (fun _ => true) (fun s => "npub" ++ s)
          (fun s => if s == "npubP" then some [] else none)
          (RelayState.mk [] []) (NEvent.mk "aa" "P" "s" 10000 2000 "" [] [])).1
        (NEvent.mk "bb" "P" "s" 10000 1000 "" [] [])).1.store =
      [NEvent.mk "bb" "P" "s" 10000 1000 "" [] []] ∧
    (NEvent.mk "bb" "P" "s" 10000 1000 "" [] []).created_at <
      (NEvent.mk "aa" "P" "s" 10000 2000 "" [] []).created_at := by
  refine ⟨by decide, by decide⟩

/-- C3 (amended): for replaceable kinds (0, 3, and [10000, 20000)) every
submission preserves "at most one stored event per (pubkey, kind)", and an
accepted replaceable submission leaves exactly the newly submitted event as
the pair's holder — the retained event is the most recently *submitted*
one, regardless of `created_at`. -/
theorem c3_replaceable_retention :
    (∀ (ftsM : String → String → Bool) (verify : NEvent → Bool)
        (npub : String → String) (auth : String → Option (List String))
        (s : RelayState) (p : NEvent),
      ReplInv s.store →
      ReplInv (handleEvent ftsM verify npub auth s p).1.store) ∧
    (∀ (ftsM : String → String → Bool) (verify : NEvent → Bool)
        (npub : String → String) (auth : String → Option (List String))
        (s : RelayState) (p : NEvent),
      ReplInv s.store →
      validateEvent verify npub auth p = .ok true →
      (∀ x ∈ s.store, x.id ≠ p.id) →
      insertRow p = .ok () →
      replaceableKind p.kind = true →
      ((handleEvent ftsM verify npub auth s p).1.store.filter
          fun x => x.pubkey == p.pubkey && x.kind == p.kind) = [p]) := by
  constructor
  · intro ftsM verify npub auth s p hInv
    rcases hveq : validateEvent verify npub auth p with m | b
    · simp only [handleEvent, hveq]
      exact hInv
    · cases b
      · simp only [handleEvent, hveq]
        exact hInv
      · by_cases hdup : (s.store.any fun x => x.id == p.id) = true
        · simp only [handleEvent, hveq, hdup, if_true]
          exact hInv
        · have hdupf : (s.store.any fun x => x.id == p.id) = false := by
            cases h : s.store.any fun x => x.id == p.id
            · rfl
            · exact absurd h hdup
          have hfresh : ∀ x ∈ s.store, x.id ≠ p.id := by
            intro x hx hid
            exact hdup (List.any_eq_true.2 ⟨x, hx, by simp [hid]⟩)
          rcases hins : insertRow p with m | u
          · simp only [handleEvent, hveq, hdupf, Bool.false_eq_true, if_false,
              hins]
            exact hInv
          · cases u
            simp only [handleEvent, hveq, hdupf, Bool.false_eq_true, if_false,
              hins]
            exact replInv_sublist (fanout_store_sublist _ _ _ _)
              (replInv_insertReplaced hInv hfresh)
  · intro ftsM verify npub auth s p hInv hv hfresh hins hrepl
    rw [handleEvent_accepted hv hfresh hins]
    have hne' : ∀ x ∈ insertReplaced s.store p, x.id = p.id →
        isEphemeral x.kind = false := by
      intro x hx hid
      rw [mem_insertReplaced_id hfresh hx hid]
      exact replaceable_not_ephemeral hrepl
    simp only [fanout_store_eq hne']
    exact insertReplaced_filter_pair hInv hfresh hrepl

/-- Witness for C3 at a concrete accepted kind-10000 write. -/
theorem c3_replaceable_retention_witness :
    ReplInv (handleEvent (fun _ _ => false) (fun _ => true)
        (fun s => "npub" ++ s) (fun s => if s == "npubP" then some [] else none)
        (RelayState.mk [] []) (NEvent.mk "aa" "P" "s" 10000 2000 "" [] [])).1.store ∧
    ((handleEvent (fun _ _ => false) (fun _ => true) (fun s => "npub" ++ s)
        (fun s => if s == "npubP" then some [] else none)
        (RelayState.mk [] []) (NEvent.mk "aa" "P" "s" 10000 2000 "" [] [])).1.store.filter
        fun x => x.pubkey == (NEvent.mk "aa" "P" "s" 10000 2000 "" [] []).pubkey &&
          x.kind == (NEvent.mk "aa" "P" "s" 10000 2000 "" [] []).kind) =
      [NEvent.mk "aa" "P" "s" 10000 2000 "" [] []] := by
  constructor
  · exact c3_replaceable_retention.1 (fun _ _ => false) (fun _ => true)
      (fun s => "npub" ++ s) (fun s => if s == "npubP" then some [] else none)
      (RelayState.mk [] []) (NEvent.mk "aa" "P" "s" 10000 2000 "" [] [])
      (by intro pk k hk; simp [List.countP_nil])
  · exact c3_replaceable_retention.2 (fun _ _ => false) (fun _ => true)
      (fun s => "npub" ++ s) (fun s => if s == "npubP" then some [] else none)
      (RelayState.mk [] []) (NEvent.mk "aa" "P" "s" 10000 2000 "" [] [])
      (by intro pk k hk; simp [List.countP_nil]) rfl (by simp) rfl (by decide)

/-! ### C4: parameterizable-replaceable keys -/

/-- Counterexample to C4 as stated: two kind-30063 events from the same
(unrestricted) publisher, both without any `d` tag.  The claim says an
absent d-tag is treated as the empty string, so the two events share a key
and must collapse to the later one; the code instead interpolates the JS
`undefined` into the lookup (`"d:undefined"`), an event without a d tag has
no `d:` index entry at all, and therefore both events are retained. -/
theorem c4_counterexample :
    (handleEvent (fun _ _ => false) (fun _ => true) (fun s => "npub" ++ s)
        (fun s => if s == "npubP" then some [] else none)
        (handleEvent (fun _ _ => false) (fun _ => true) (fun s => "npub" ++ s)
          (fun s => if s == "npubP" then some [] else none)
          (RelayState.mk [] []) (NEvent.mk "aa" "P" "s" 30063 1 "" [] [])).1
        (NEvent.mk "bb" "P" "s" 30063 2 "" [] [])).1.store =
      [NEvent.mk "aa" "P" "s" 30063 1 "" [] [],
       NEvent.mk "bb" "P" "s" 30063 2 "" [] []] ∧
    dTagStr (NEvent.mk "bb" "P" "s" 30063 2 "" [] []) = "undefined" := by
  refine ⟨by decide, by decide⟩

/-- C4 (amended): for an accepted parameterizable-replaceable event
(30000 ≤ kind < 40000), the handler deletes the first stored event with the
same pubkey and kind that has **any** `tags_index` entry equal to
`"d:" ++ d`, where `d` is the first value of the new event's first tag
named `"d"` — the literal string `"undefined"` when the new event has no
such tag (so two events both lacking a d tag never share a key and are both
retained).  When such a predecessor exists the write keeps everything but
its id plus the new event; when none exists both events persist. -/
theorem c4_param_replacement :
    (∀ (ftsM : String → String → Bool) (verify : NEvent → Bool)
        (npub : String → String) (auth : String → Option (List String))
        (s : RelayState) (p q : NEvent),
      validateEvent verify npub auth p = .ok true →
      (∀ x ∈ s.store, x.id ≠ p.id) →
      insertRow p = .ok () →
      paramKind p.kind = true →
      s.store.find? (fun x => x.pubkey == p.pubkey && x.kind == p.kind &&
        (idxValues x).contains ("d:" ++ dTagStr p)) = some q →
      (handleEvent ftsM verify npub auth s p).1.store =
        (s.store ++ [p]).filter fun x => !(x.id == q.id)) ∧
    (∀ (ftsM : String → String → Bool) (verify : NEvent → Bool)
        (npub : String → String) (auth : String → Option (List String))
        (s : RelayState) (p : NEvent),
      validateEvent verify npub auth p = .ok true →
      (∀ x ∈ s.store, x.id ≠ p.id) →
      insertRow p = .ok () →
      paramKind p.kind = true →
      s.store.find? (fun x => x.pubkey == p.pubkey && x.kind == p.kind &&
        (idxValues x).contains ("d:" ++ dTagStr p)) = none →
      (handleEvent ftsM verify npub auth s p).1.store = s.store ++ [p]) := by
  constructor
  · intro ftsM verify npub auth s p q hv hfresh hins hpk hfind
    rw [handleEvent_accepted hv hfresh hins]
    have hrt : replaceTarget s.store p = some q.id := by
      simp only [replaceTarget, hpk, Bool.or_true, eq_self_iff_true, if_true,
        hfind, Option.map_some']
    have hins2 : insertReplaced s.store p =
        (s.store ++ [p]).filter fun x => !(x.id == q.id) := by
      unfold insertReplaced
      rw [hrt]
    have hne' : ∀ x ∈ insertReplaced s.store p, x.id = p.id →
        isEphemeral x.kind = false := by
      intro x hx hid
      rw [mem_insertReplaced_id hfresh hx hid]
      exact param_not_ephemeral hpk
    simp only [fanout_store_eq hne']
    exact hins2
  · intro ftsM verify npub auth s p hv hfresh hins hpk hfind
    rw [handleEvent_accepted hv hfresh hins]
    have hrt : replaceTarget s.store p = none := by
      simp only [replaceTarget, hpk, Bool.or_true, eq_self_iff_true, if_true,
        hfind, Option.map_none']
    have hins2 : insertReplaced s.store p = s.store ++ [p] := by
      unfold insertReplaced
      rw [hrt]
    have hne' : ∀ x ∈ insertReplaced s.store p, x.id = p.id →
        isEphemeral x.kind = false := by
      intro x hx hid
      rw [mem_insertReplaced_id hfresh hx hid]
      exact param_not_ephemeral hpk
    simp only [fanout_store_eq hne']
    exact hins2

/-- Witness for C4: a same-d-tag collapse and a fresh-key insert. -/
theorem c4_param_replacement_witness :
    (handleEvent (fun _ _ => false) (fun _ => true) (fun s => "npub" ++ s)
        (fun s => if s == "npubP" then some [] else none)
        (RelayState.mk [NEvent.mk "aa" "P" "s" 30063 1 "" [["d", "x"]] []] [])
        (NEvent.mk "bb" "P" "s" 30063 2 "" [["d", "x"]] [])).1.store =
      (([NEvent.mk "aa" "P" "s" 30063 1 "" [["d", "x"]] []] ++
        [NEvent.mk "bb" "P" "s" 30063 2 "" [["d", "x"]] []]).filter
        fun x => !(x.id == (NEvent.mk "aa" "P" "s" 30063 1 "" [["d", "x"]] []).id)) ∧
    (handleEvent (fun _ _ => false) (fun _ => true) (fun s => "npub" ++ s)
        (fun s => if s == "npubP" then some [] else none)
        (RelayState.mk [] []) (NEvent.mk "bb" "P" "s" 30063 2 "" [["d", "x"]] [])).1.store =
      [] ++ [NEvent.mk "bb" "P" "s" 30063 2 "" [["d", "x"]] []] := by
  constructor
  · exact c4_param_replacement.1 (fun _ _ => false) (fun _ => true)
      (fun s => "npub" ++ s) (fun s => if s == "npubP" then some [] else none)
      (RelayState.mk [NEvent.mk "aa" "P" "s" 30063 1 "" [["d", "x"]] []] [])
      (NEvent.mk "bb" "P" "s" 30063 2 "" [["d", "x"]] [])
      (NEvent.mk "aa" "P" "s" 30063 1 "" [["d", "x"]] [])
      rfl (by simp) rfl (by decide) rfl
  · exact c4_param_replacement.2 (fun _ _ => false) (fun _ => true)
      (fun s => "npub" ++ s) (fun s => if s == "npubP" then some [] else none)
      (RelayState.mk [] []) (NEvent.mk "bb" "P" "s" 30063 2 "" [["d", "x"]] [])
      rfl (by simp) rfl (by decide) rfl

/-! ### C7: ephemeral events -/

theorem count_le_one_of_pairwise_ids {st : List NEvent} {e : NEvent}
    (hu : st.Pairwise fun a b => a.id ≠ b.id) : st.count e ≤ 1 := by
  induction st with
  | nil => simp
  | cons h t ih =>
    rcases List.pairwise_cons.1 hu with ⟨hh, ht⟩
    rw [List.count_cons]
    by_cases he : e = h
    · subst he
      have h0 : t.count e = 0 := by
        rw [List.count_eq_zero]
        intro hc
        exact hh e hc rfl
      simp [h0]
    · have hb : (h == e) = false := beq_eq_false_iff_ne.2 (Ne.symm he)
      simp only [hb, Bool.false_eq_true, if_false]
      have := ih ht
      omega

theorem mem_handleRequestRest_store {ftsM : String → String → Bool}
    {st : List NEvent} {fs : List Filter} {e : NEvent}
    (h : e ∈ (handleRequestRest ftsM st fs).1) : e ∈ st := by
  unfold handleRequestRest at h
  split at h
  · cases h
  · rcases mem_queryFilters.1 h with ⟨f, _, hx⟩
    exact (mem_evalFilter hx).1

/-- Counterexample to C7 as stated: a REQ whose filter set lists the same
matching filter twice returns the kind-20000 event twice, not "exactly
once" — the per-filter results are concatenated without deduplication. -/
theorem c7_counterexample :
    (handleRequestRest (fun _ _ => false)
        [NEvent.mk "ee" "P" "s" 20000 1 "" [] []]
        [{ kinds := some [1011, 20000] }, { kinds := some [1011, 20000] }]).1 =
      [NEvent.mk "ee" "P" "s" 20000 1 "" [] [],
       NEvent.mk "ee" "P" "s" 20000 1 "" [] []] := by
  decide

/-- C7 (amended): an ephemeral event contained in a historical query's
result set is deleted from the events table by that query (one copy is
returned per matching filter — exactly once for a single-filter request on
a store with distinct ids) and an identical rerun of the query no longer
returns it. -/
theorem c7_ephemeral_deletion :
    (∀ (ftsM : String → String → Bool) (st : List NEvent) (fs : List Filter)
        (e : NEvent),
      e ∈ (handleRequestRest ftsM st fs).1 → isEphemeral e.kind = true →
      e ∉ (handleRequestRest ftsM st fs).2) ∧
    (∀ (ftsM : String → String → Bool) (st : List NEvent) (f : Filter)
        (e : NEvent),
      st.Pairwise (fun a b => a.id ≠ b.id) →
      e ∈ (handleRequestRest ftsM st [f]).1 →
      (handleRequestRest ftsM st [f]).1.count e = 1) ∧
    (∀ (ftsM : String → String → Bool) (st : List NEvent) (fs : List Filter)
        (e : NEvent),
      e ∈ (handleRequestRest ftsM st fs).1 → isEphemeral e.kind = true →
      e ∉ (handleRequestRest ftsM (handleRequestRest ftsM st fs).2 fs).1) := by
  have part1 : ∀ (ftsM : String → String → Bool) (st : List NEvent)
      (fs : List Filter) (e : NEvent),
      e ∈ (handleRequestRest ftsM st fs).1 → isEphemeral e.kind = true →
      e ∉ (handleRequestRest ftsM st fs).2 := by
    intro ftsM st fs e hmem heph hcontra
    unfold handleRequestRest at hmem hcontra
    split at hmem
    · cases hmem
    · rename_i hgate
      rw [if_neg hgate] at hcontra
      simp only [afterEphemeral] at hcontra
      have hid : e.id ∈ ((queryFilters ftsM st fs).filter
          fun x => isEphemeral x.kind).map (fun x => x.id) :=
        List.mem_map.2 ⟨e, List.mem_filter.2 ⟨hmem, heph⟩, rfl⟩
      have hnemp : (((queryFilters ftsM st fs).filter
          fun x => isEphemeral x.kind).map (fun x => x.id)).isEmpty = false := by
        rw [List.isEmpty_eq_false]
        exact List.ne_nil_of_mem hid
      rw [hnemp] at hcontra
      simp only [Bool.false_eq_true, if_false] at hcontra
      have hcc := List.of_mem_filter hcontra
      have hfalse : (((queryFilters ftsM st fs).filter
          fun x => isEphemeral x.kind).map fun x => x.id).contains e.id = false := by
        cases hb : (((queryFilters ftsM st fs).filter
            fun x => isEphemeral x.kind).map fun x => x.id).contains e.id
        · rfl
        · rw [hb] at hcc
          exact absurd hcc (by decide)
      have htrue : (((queryFilters ftsM st fs).filter
          fun x => isEphemeral x.kind).map fun x => x.id).contains e.id = true :=
        List.elem_iff.2 hid
      rw [hfalse] at htrue
      cases htrue
  refine ⟨part1, ?_, ?_⟩
  · intro ftsM st f e hu hmem
    have h1 : (handleRequestRest ftsM st [f]).1.count e ≤ st.count e := by
      unfold handleRequestRest
      split
      · simp
      · simp only [queryFilters, List.map_cons, List.map_nil, List.flatten,
          List.append_nil]
        exact count_evalFilter_le ftsM st f e
    have h2 : st.count e ≤ 1 := count_le_one_of_pairwise_ids hu
    have h3 : 0 < (handleRequestRest ftsM st [f]).1.count e :=
      List.count_pos_iff.2 hmem
    omega
  · intro ftsM st fs e hmem heph hcontra
    exact part1 ftsM st fs e hmem heph (mem_handleRequestRest_store hcontra)

/-! ### C9: INSERT column list comes from the payload's own keys -/

/-- Counterexample to C9 as stated, in both directions.  (1) An event whose
top-level keys are exactly the seven canonical ones can still fail to
insert — a tag `["t"]` with a single-letter name and no value makes the
`events_ai` trigger compute `NULL` for the NOT NULL column
`tags_index.value`, aborting the INSERT; the client gets OK-false with an
error reason and the events table is unchanged.  (2) An additional
top-level key does not always reference a non-existent column: an extra
key `"rowid"` (with an integral value) names SQLite's implicit rowid of
the `events` rowid table, the INSERT succeeds and the event is accepted
OK-true. -/
theorem c9_counterexample :
    (handleEvent (fun _ _ => false) (fun _ => true) (fun s => "npub" ++ s)
        (fun s => if s == "npubP" then some [] else none)
        (RelayState.mk [] []) (NEvent.mk "e1" "P" "s" 1 1 "" [["t"]] []) =
      (RelayState.mk [] [],
       [Frame.ok "e1" false "error: NOT NULL constraint failed: tags_index.value"],
       []) ∧
     (NEvent.mk "e1" "P" "s" 1 1 "" [["t"]] []).extra = []) ∧
    (insertRow (NEvent.mk "e3" "P" "s" 1 1 "" [] ["rowid"]) = .ok () ∧
     (handleEvent (fun _ _ => false) (fun _ => true) (fun s => "npub" ++ s)
        (fun s => if s == "npubP" then some [] else none)
        (RelayState.mk [] [])
        (NEvent.mk "e3" "P" "s" 1 1 "" [] ["rowid"])).2.1.head? =
      some (Frame.ok "e3" true "")) := by
  refine ⟨⟨by decide, rfl⟩, rfl, by decide⟩

/-- C9 (amended): the INSERT statement is built from the submitted object's
own key set, interpolated as column names.  An accepted event whose keys
are exactly {id, pubkey, sig, kind, created_at, content, tags} inserts
successfully and is acknowledged OK-true, *provided* additionally that no
single-letter-named tag lacks a value (else the tag-index trigger rejects
the row); an accepted event carrying additional top-level keys none of
which resolves to a column of the `events` table — the seven declared
columns or SQLite's implicit rowid aliases `rowid`/`oid`/`_rowid_`,
ASCII-case-insensitively — makes the INSERT reference a non-existent
column, the write throws, the client receives OK-false with an "error: "
reason, and the state (events table included) is unchanged with no
fan-out.  (An extra key that *is* a rowid alias resolves and the insert
succeeds: see the counterexample.) -/
theorem c9_insert_columns :
    (∀ (ftsM : String → String → Bool) (verify : NEvent → Bool)
        (npub : String → String) (auth : String → Option (List String))
        (s : RelayState) (p : NEvent),
      validateEvent verify npub auth p = .ok true →
      (∀ x ∈ s.store, x.id ≠ p.id) →
      p.extra = [] →
      (∀ t ∈ p.tags, valuelessSingleLetterTag t = false) →
      insertRow p = .ok () ∧
      (handleEvent ftsM verify npub auth s p).2.1.head? =
        some (Frame.ok p.id true "")) ∧
    (∀ (ftsM : String → String → Bool) (verify : NEvent → Bool)
        (npub : String → String) (auth : String → Option (List String))
        (s : RelayState) (p : NEvent) (k : String),
      validateEvent verify npub auth p = .ok true →
      (∀ x ∈ s.store, x.id ≠ p.id) →
      k ∈ p.extra →
      (∀ k2 ∈ p.extra, isEventsColumn k2 = false) →
      ∃ m, handleEvent ftsM verify npub auth s p =
        (s, [Frame.ok p.id false ("error: " ++ m)], [])) := by
  constructor
  · intro ftsM verify npub auth s p hv hfresh hextra hwf
    have hins : insertRow p = .ok () := by
      simp only [insertRow, hextra, List.find?_nil]
      have hany : (p.tags.any valuelessSingleLetterTag) = false := by
        rw [List.any_eq_false]
        intro t ht
        simp [hwf t ht]
      rw [hany]
      simp
    refine ⟨hins, ?_⟩
    rw [handleEvent_accepted hv hfresh hins]
    rfl
  · intro ftsM verify npub auth s p k hv hfresh hkmem hall
    have hsome : ∃ k0, (p.extra.find? fun k2 => !(isEventsColumn k2)) =
        some k0 := by
      have hex : ∃ x ∈ p.extra, (!(isEventsColumn x)) = true := by
        refine ⟨k, hkmem, ?_⟩
        rw [hall k hkmem]
        rfl
      have := List.find?_isSome.2 hex
      exact Option.isSome_iff_exists.1 this
    rcases hsome with ⟨k0, hk0⟩
    have hins : insertRow p = .error ("table events has no column named " ++ k0) := by
      simp only [insertRow, hk0]
    have hdupf : (s.store.any fun x => x.id == p.id) = false := by
      rw [List.any_eq_false]
      intro x hx
      simp [hfresh x hx]
    refine ⟨"table events has no column named " ++ k0, ?_⟩
    simp [handleEvent, hv, hdupf, hins]

/-- Witness for C9: a clean seven-key insert and an extra-key rejection. -/
theorem c9_insert_columns_witness :
    (insertRow (NEvent.mk "e1" "P" "s" 1 1 "" [["d", "x"]] []) = .ok () ∧
     (handleEvent (fun _ _ => false) (fun _ => true) (fun s => "npub" ++ s)
        (fun s => if s == "npubP" then some [] else none)
        (RelayState.mk [] [])
        (NEvent.mk "e1" "P" "s" 1 1 "" [["d", "x"]] [])).2.1.head? =
      some (Frame.ok "e1" true "")) ∧
    (∃ m, handleEvent (fun _ _ => false) (fun _ => true) (fun s => "npub" ++ s)
        (fun s => if s == "npubP" then some [] else none)
        (RelayState.mk [] [])
        (NEvent.mk "e2" "P" "s" 1 1 "" [] ["foo"]) =
      (RelayState.mk [] [], [Frame.ok "e2" false ("error: " ++ m)], [])) := by
  constructor
  · exact c9_insert_columns.1 (fun _ _ => false) (fun _ => true)
      (fun s => "npub" ++ s) (fun s => if s == "npubP" then some [] else none)
      (RelayState.mk [] []) (NEvent.mk "e1" "P" "s" 1 1 "" [["d", "x"]] [])
      rfl (by simp) rfl (by decide)
  · exact c9_insert_columns.2 (fun _ _ => false) (fun _ => true)
      (fun s => "npub" ++ s) (fun s => if s == "npubP" then some [] else none)
      (RelayState.mk [] []) (NEvent.mk "e2" "P" "s" 1 1 "" [] ["foo"]) "foo"
      rfl (by simp) (by simp) (by decide)

/-- Witness for C7 at a concrete ephemeral event. -/
theorem c7_ephemeral_deletion_witness :
    (NEvent.mk "ee" "P" "s" 20000 1 "" [] [] ∉
      (handleRequestRest (fun _ _ => false)
        [NEvent.mk "ee" "P" "s" 20000 1 "" [] []]
        [{ kinds := some [1011, 20000] }]).2) ∧
    ((handleRequestRest (fun _ _ => false)
        [NEvent.mk "ee" "P" "s" 20000 1 "" [] []]
        [{ kinds := some [1011, 20000] }]).1.count
      (NEvent.mk "ee" "P" "s" 20000 1 "" [] []) = 1) ∧
    (NEvent.mk "ee" "P" "s" 20000 1 "" [] [] ∉
      (handleRequestRest (fun _ _ => false)
        (handleRequestRest (fun _ _ => false)
          [NEvent.mk "ee" "P" "s" 20000 1 "" [] []]
          [{ kinds := some [1011, 20000] }]).2
        [{ kinds := some [1011, 20000] }]).1) := by
  refine ⟨?_, ?_, ?_⟩
  · exact c7_ephemeral_deletion.1 (fun _ _ => false)
      [NEvent.mk "ee" "P" "s" 20000 1 "" [] []]
      [{ kinds := some [1011, 20000] }]
      (NEvent.mk "ee" "P" "s" 20000 1 "" [] []) (by decide) (by decide)
  · exact c7_ephemeral_deletion.2.1 (fun _ _ => false)
      [NEvent.mk "ee" "P" "s" 20000 1 "" [] []]
      { kinds := some [1011, 20000] }
      (NEvent.mk "ee" "P" "s" 20000 1 "" [] []) (by simp) (by decide)
  · exact c7_ephemeral_deletion.2.2 (fun _ _ => false)
      [NEvent.mk "ee" "P" "s" 20000 1 "" [] []]
      [{ kinds := some [1011, 20000] }]
      (NEvent.mk "ee" "P" "s" 20000 1 "" [] []) (by decide) (by decide)

theorem isPrefixOf_eq_true_iff {a b : List Char} :
    a.isPrefixOf b = true ↔ a <+: b := List.isPrefixOf_iff_prefix

/-- A dash-free string is a prefix of `c' ++ "-" ++ r` iff it is a prefix
of `c'`: it cannot reach past the dash. -/
theorem prefix_key_iff {c : List Char} (c' r : List Char) (hc : dashFree c) :
    c <+: (c' ++ '-' :: r) ↔ c <+: c' := by
  constructor
  · intro h
    induction c' generalizing c with
    | nil =>
      rcases c with _ | ⟨b, cs⟩
      · exact List.nil_prefix
      · rcases h with ⟨t, ht⟩
        rw [List.nil_append] at ht
        injection ht with h1 h2
        exact absurd (h1 ▸ List.mem_cons_self b cs) hc
    | cons a cs' ih =>
      rcases c with _ | ⟨b, cs⟩
      · exact List.nil_prefix
      · rw [List.cons_append, List.cons_prefix_cons] at h
        obtain ⟨rfl, h2⟩ := h
        have hcs : dashFree cs := fun hm => hc (List.mem_cons_of_mem _ hm)
        exact List.cons_prefix_cons.2 ⟨rfl, ih hcs h2⟩
  · intro h
    exact h.trans (List.prefix_append c' ('-' :: r))

/-- C10: (1) under the precondition that connection ids are dash-free
decimal strings, none is a proper prefix of another live one, and every
registry entry is owned by a live connection, the close handler's
`startsWith` test selects exactly the closing connection's own keys; and
(2) every registry operation preserves the ownership invariant. -/
theorem c10_close_cleanup :
    (∀ (s : RegState) (c : List Char),
      (∀ c2 ∈ s.conns, dashFree c2) →
      (∀ c1 ∈ s.conns, ∀ c2 ∈ s.conns, c1.isPrefixOf c2 = true → c1 = c2) →
      c ∈ s.conns → Owned s →
      ∀ k ∈ s.reg, (c.isPrefixOf k = true ↔ ∃ r, k = keyOf c r)) ∧
    (∀ (s s2 : RegState), Owned s → RegStep s s2 → Owned s2) := by
  constructor
  · intro s c hdf hnp hcmem hown k hk
    obtain ⟨c', hc'mem, r, rfl⟩ := hown k hk
    constructor
    · intro hpre
      rw [isPrefixOf_eq_true_iff] at hpre
      have h2 : c <+: c' := (prefix_key_iff c' r (hdf c hcmem)).1 hpre
      have h3 : c.isPrefixOf c' = true := isPrefixOf_eq_true_iff.2 h2
      have heq : c = c' := hnp c hcmem c' hc'mem h3
      subst heq
      exact ⟨r, rfl⟩
    · rintro ⟨r2, hr2⟩
      rw [hr2, isPrefixOf_eq_true_iff]
      exact (prefix_key_iff c r2 (hdf c hcmem)).2 (List.prefix_refl c)
  · intro s s2 hown hstep
    cases hstep with
    | openC c hc =>
      intro k hk
      obtain ⟨c0, hc0, r0, hr0⟩ := hown k hk
      exact ⟨c0, List.mem_cons_of_mem c hc0, r0, hr0⟩
    | req c r hc =>
      intro k hk
      simp only [addSub] at hk
      split at hk
      · exact hown k hk
      · rcases List.mem_append.1 hk with hold | hnew
        · exact hown k hold
        · rw [List.mem_singleton] at hnew
          exact ⟨c, hc, r, hnew⟩
    | closeReq c r hc =>
      intro k hk
      exact hown k (List.mem_of_mem_filter hk)
    | disconnect c hc =>
      intro k hk
      have hkreg := List.mem_of_mem_filter hk
      have hkeep := List.of_mem_filter hk
      obtain ⟨c0, hc0, r0, hr0⟩ := hown k hkreg
      have hne : c0 ≠ c := by
        intro h
        subst h
        rw [hr0] at hkeep
        have hpre : c0.isPrefixOf (keyOf c0 r0) = true :=
          isPrefixOf_eq_true_iff.2 (List.prefix_append c0 ('-' :: r0))
        rw [hpre] at hkeep
        exact absurd hkeep (by decide)
      refine ⟨c0, ?_, r0, hr0⟩
      exact List.mem_filter.2 ⟨hc0, by simp [hne]⟩

/-- Witness for C10 at a concrete two-connection registry. -/
theorem c10_close_cleanup_witness :
    ((['1'] : List Char).isPrefixOf (keyOf ['1'] ['a']) = true ↔
      ∃ r, keyOf ['1'] ['a'] = keyOf ['1'] r) ∧
    Owned (addSub (RegState.mk [['1']] []) ['1'] ['a']) := by
  constructor
  · exact (c10_close_cleanup.1 (RegState.mk [['1'], ['2']] [keyOf ['1'] ['a']])
      ['1'] (by decide) (by decide) (by decide)
      (by
        intro k hk
        rw [List.mem_singleton] at hk
        exact ⟨['1'], by decide, ['a'], hk⟩)
      (keyOf ['1'] ['a']) (by decide))
  · exact c10_close_cleanup.2 (RegState.mk [['1']] [])
      (addSub (RegState.mk [['1']] []) ['1'] ['a'])
      (by intro k hk; cases hk)
      (RegStep.req (RegState.mk [['1']] []) ['1'] ['a'] (by decide))

end Relay
